import Mathlib

/-!
# Verification of the Smart PDF Q&A local answering core

Shallow embedding of the answering pipeline of `app.py`
(class `SecureQASystem` and the `/upload` route's session bookkeeping).

Python strings are modelled as Lean `String` (a list of characters,
compared lexicographically by code point, which matches Python string
comparison).  Python's `None` / non-`str` arguments are modelled with
`Option String` where the source checks `isinstance(text, str)`.
-/

namespace SmartPDF

/-- The whitespace characters stripped by Python's `str.strip()` and used
as separators by `str.split()` (space, tab, newline, carriage return,
vertical tab `\x0b`, form feed `\x0c`). -/
def pyIsSpace (c : Char) : Bool :=
  c = ' ' || c = '\t' || c = '\n' || c = '\r' || c.toNat = 11 || c.toNat = 12

/-- Python `str.strip()` on a character list: drop leading and trailing
whitespace. -/
def pyStripList (l : List Char) : List Char :=
  ((l.dropWhile pyIsSpace).reverse.dropWhile pyIsSpace).reverse

/-- Python `str.strip()`. -/
def pyStrip (s : String) : String := ⟨pyStripList s.data⟩

/-- Split a character list at every single character satisfying `isSep`;
pieces between two adjacent separators are empty.  This is Python
`re.split` with a single-character class and no `+`. -/
def singleSplit (isSep : Char → Bool) : List Char → List (List Char)
  | [] => [[]]
  | c :: cs =>
    let r := singleSplit isSep cs
    if isSep c then [] :: r else (c :: r.headI) :: r.tail

/-- Drop the empty pieces of a piece list except for the final one
(the final piece records a trailing separator and is kept, exactly as
`re.split` with a `+`-quantified class keeps a trailing empty piece). -/
def collapseEmpties : List (List Char) → List (List Char)
  | [] => []
  | [p] => [p]
  | p :: rest => if p = [] then collapseEmpties rest else p :: collapseEmpties rest

/-- Python `re.split(r'[…]+', s)`: split at every maximal run of
separator characters.  Equal to the single-character split with the
interior empty pieces removed (the leading and trailing pieces are kept
even when empty). -/
def splitRuns (isSep : Char → Bool) (l : List Char) : List (List Char) :=
  match singleSplit isSep l with
  | [] => [[]]
  | [p] => [p]
  | p :: rest => p :: collapseEmpties rest

/-- Python `str.split()` with no argument: split on runs of whitespace and
drop all empty pieces. -/
def pySplitWs (s : String) : List String :=
  ((singleSplit pyIsSpace s.data).filter (· ≠ [])).map fun p => (⟨p⟩ : String)

/-- Python `str.lower()` (faithful on ASCII, which is all the pipeline's
keyword tests use). -/
def pyLower (s : String) : String := ⟨s.data.map Char.toLower⟩

/-- `markupsafe.escape` on one character: `&`, `<`, `>`, `"` and the
single quote (code point 39) are replaced by their HTML entities. -/
def escapeChar (c : Char) : List Char :=
  if c = '&' then ['&', 'a', 'm', 'p', ';']
  else if c = '<' then ['&', 'l', 't', ';']
  else if c = '>' then ['&', 'g', 't', ';']
  else if c = '"' then ['&', '#', '3', '4', ';']
  else if c.toNat = 39 then ['&', '#', '3', '9', ';']
  else [c]

/-- `markupsafe.escape` on a whole string. -/
def pyEscape (s : String) : String :=
  ⟨s.data.foldr (fun c acc => escapeChar c ++ acc) []⟩

/-- `SecureQASystem._sanitize_text` restricted to actual strings:
`escape(text.strip())` (app.py lines 75-79). -/
def sanitizeStr (t : String) : String := pyEscape (pyStrip t)

/-- `SecureQASystem._sanitize_text` (app.py lines 75-79): non-`str`
input (modelled by `none`) is mapped to the empty string. -/
def sanitize_text : Option String → String
  | none => ""
  | some t => sanitizeStr t

/-- The sentence-boundary characters of `re.split(r'[.!?\n]+', text)`
(app.py line 86). -/
def isSentSep (c : Char) : Bool :=
  c = '.' || c = '!' || c = '?' || c = '\n'

/-- `SecureQASystem._extract_sentences` (app.py lines 81-87): split the
text on runs of `.` `!` `?` or newline, strip each piece, and keep the
pieces whose stripped length exceeds 10.  `none` models a non-`str`
argument. -/
def extract_sentences : Option String → List String
  | none => []
  | some t =>
    if t = "" then []
    else ((splitRuns isSentSep t.data).map fun p => pyStrip ⟨p⟩).filter
      fun s => 10 < s.data.length

/-- Word set of a string as Python builds it: lower-case, split on
whitespace, collapse duplicates (app.py lines 98 and 102). -/
def wordSet (s : String) : List String := (pySplitWs (pyLower s)).dedup

/-- `len(query_words & sentence_words)`: the number of distinct words
common to query and sentence (app.py line 103). -/
def overlapScore (q s : String) : Nat :=
  ((wordSet q).filter fun w => w ∈ wordSet s).length

/-- Lexicographic comparison of character lists by code point, the order
Python uses to compare strings:  `listLE a b = true` iff `a ≤ b`. -/
def listLE : List Char → List Char → Bool
  | [], _ => true
  | _ :: _, [] => false
  | a :: as, b :: bs =>
    if a.toNat < b.toNat then true
    else if b.toNat < a.toNat then false
    else listLE as bs

/-- The descending order in which Python's `list.sort(reverse=True)`
arranges the `(score, sentence)` pairs of app.py line 107: larger score
first, ties broken by lexicographically larger sentence text first. -/
def pairGe (a b : Nat × String) : Prop :=
  b.1 < a.1 ∨ (a.1 = b.1 ∧ listLE b.2.data a.2.data = true)

instance : DecidableRel pairGe := fun a b =>
  inferInstanceAs (Decidable (b.1 < a.1 ∨ (a.1 = b.1 ∧ listLE b.2.data a.2.data = true)))

instance : IsTrans (Nat × String) pairGe := by
  constructor
  have htrans : ∀ x y z : List Char,
      listLE x y = true → listLE y z = true → listLE x z = true := by
    intro x
    induction x with
    | nil => intro y z _ _; rfl
    | cons a as ih =>
      intro y z hxy hyz
      cases y with
      | nil => rw [listLE] at hxy; exact absurd hxy (by simp)
      | cons b bs =>
        cases z with
        | nil => rw [listLE] at hyz; exact absurd hyz (by simp)
        | cons d ds =>
          rw [listLE] at hxy hyz ⊢
          by_cases hab : a.toNat < b.toNat
          · rw [if_pos hab] at hxy
            by_cases hbd : b.toNat < d.toNat
            · rw [if_pos (by omega)]
            · by_cases hdb : d.toNat < b.toNat
              · rw [if_neg hbd, if_pos hdb] at hyz
                exact absurd hyz (by simp)
              · rw [if_pos (by omega)]
          · by_cases hba : b.toNat < a.toNat
            · rw [if_neg hab, if_pos hba] at hxy
              exact absurd hxy (by simp)
            · rw [if_neg hab, if_neg hba] at hxy
              by_cases hbd : b.toNat < d.toNat
              · rw [if_pos (by omega)]
              · by_cases hdb : d.toNat < b.toNat
                · rw [if_neg hbd, if_pos hdb] at hyz
                  exact absurd hyz (by simp)
                · rw [if_neg hbd, if_neg hdb] at hyz
                  rw [if_neg (by omega), if_neg (by omega)]
                  exact ih bs ds hxy hyz
  intro a b c hab hbc
  rcases hab with h1 | ⟨h1, h1'⟩ <;> rcases hbc with h2 | ⟨h2, h2'⟩
  · exact Or.inl (h2.trans h1)
  · exact Or.inl (h2 ▸ h1)
  · exact Or.inl (h1 ▸ h2)
  · exact Or.inr ⟨h1.trans h2, htrans _ _ _ h2' h1'⟩

instance : IsTotal (Nat × String) pairGe := by
  constructor
  have htotal : ∀ x y : List Char, listLE x y = true ∨ listLE y x = true := by
    intro x
    induction x with
    | nil => intro y; left; rfl
    | cons a as ih =>
      intro y
      cases y with
      | nil => right; rfl
      | cons b bs =>
        rcases Nat.lt_trichotomy a.toNat b.toNat with h | h | h
        · left; rw [listLE, if_pos h]
        · rcases ih bs with h2 | h2
          · left; rw [listLE, if_neg (by omega), if_neg (by omega)]; exact h2
          · right; rw [listLE, if_neg (by omega), if_neg (by omega)]; exact h2
        · right; rw [listLE, if_pos h]
  intro a b
  rcases Nat.lt_trichotomy a.1 b.1 with h | h | h
  · exact Or.inr (Or.inl h)
  · rcases htotal a.2.data b.2.data with h2 | h2
    · exact Or.inr (Or.inr ⟨h.symm, h2⟩)
    · exact Or.inl (Or.inr ⟨h, h2⟩)
  · exact Or.inl (Or.inl h)

/-- The scored-sentence list built by the loop of app.py lines 99-105:
one `(score, sentence)` pair per sentence with positive overlap, in
document order. -/
def scored_sentences (query context : String) : List (Nat × String) :=
  ((extract_sentences (some context)).filter fun s => 0 < overlapScore query s).map
    fun s => (overlapScore query s, s)

/-- `SecureQASystem._find_relevant_content` (app.py lines 89-108): guard
against empty query/context and empty sentence list, score the
sentences, sort the positive-score pairs descending (score first, then
sentence text), return the sentences of the first three pairs. -/
def find_relevant_content (query context : String) : List String :=
  if query = "" ∨ context = "" then []
  else if extract_sentences (some context) = [] then []
  else ((List.insertionSort pairGe (scored_sentences query context)).take 3).map Prod.snd

/-- Python's substring test `needle in hay` on character lists. -/
def listContainsSub : List Char → List Char → Bool
  | [], needle => needle.isEmpty
  | c :: t, needle => needle.isPrefixOf (c :: t) || listContainsSub t needle

/-- Python's substring test `needle in hay` on strings. -/
def hasSub (hay needle : String) : Bool := listContainsSub hay.data needle.data

/-- `SecureQASystem._generate_local_answer` (app.py lines 139-160): if no
relevant sentence is found return the fixed no-match message, otherwise
prepend the question-type prefix chosen by substring tests on the
lower-cased query, first match winning, to the sanitized top sentence. -/
def generate_local_answer (query context : String) : String :=
  match find_relevant_content query context with
  | [] => "No relevant information found in the document"
  | primary :: _ =>
    let ql := pyLower query
    let ps := sanitizeStr primary
    if hasSub ql "what" || hasSub ql "define" then "According to the document: " ++ ps
    else if hasSub ql "how" || hasSub ql "process" then "The process described is: " ++ ps
    else if hasSub ql "why" || hasSub ql "reason" then "The explanation provided is: " ++ ps
    else if hasSub ql "when" || hasSub ql "where" || hasSub ql "who" then "Based on the document: " ++ ps
    else "From the document: " ++ ps

/-- `MAX_CONTEXT_LENGTH` (app.py line 51). -/
def MAX_CONTEXT_LENGTH : Nat := 2000

/-- The truncation of app.py line 117:
`context[:MAX_CONTEXT_LENGTH] if len(context) > MAX_CONTEXT_LENGTH else context`. -/
def truncate_context (context : String) : String :=
  if MAX_CONTEXT_LENGTH < context.data.length then
    (⟨context.data.take MAX_CONTEXT_LENGTH⟩ : String)
  else context

/-- `SecureQASystem.generate_answer` (app.py lines 110-137) in the
configuration where no remote client is available (`self.client is
None`, the case all claims address): validate, sanitize the query
(line 116 rebinds `query` to the sanitized text), hard-truncate the
context to `MAX_CONTEXT_LENGTH` characters, and run the local fallback
on the sanitized query and truncated context.  When a client is
configured but its call fails, line 137 reaches the same fallback call
with the same arguments. -/
def generate_answer (query context : String) : String :=
  if query = "" ∨ context = "" then "Invalid input provided"
  else generate_local_answer (sanitizeStr query) (truncate_context context)

/-! ## Session state of the `/upload` route -/

/-- Outcome of `secure_extract_pdf_text` / `secure_extract_image_text`
as observed by the `/upload` route: either a returned text (possibly a
sentinel such as "Text extraction failed") or a raised exception. -/
inductive ExtractResult where
  | ok (text : String)
  | raises
deriving DecidableEq

/-- Response of the `/upload` route, restricted to what the claims
observe: the success JSON (with the escaped text) or the
processing-failure error. -/
inductive UploadResponse where
  | success (text : String)
  | failure
deriving DecidableEq

/-- The two session dictionaries `session_files` and `session_content`
(app.py lines 55-56), modelled as association lists. -/
structure AppState where
  session_files : List (String × List String)
  session_content : List (String × String)
deriving DecidableEq

/-- Dictionary lookup. -/
def lookupS {α : Type} : List (String × α) → String → Option α
  | [], _ => none
  | (k, v) :: rest, key => if k = key then some v else lookupS rest key

/-- Dictionary assignment `d[key] = v`. -/
def setS {α : Type} : List (String × α) → String → α → List (String × α)
  | [], key, v => [(key, v)]
  | (k, w) :: rest, key, v =>
    if k = key then (k, v) :: rest else (k, w) :: setS rest key v

/-- The state-mutating part of the `/upload` route (app.py lines
324-357), after all request validation has passed and the file has been
saved at `fp`: initialise the two session entries when the session id is
new to `session_files`, append the file path, then either store the
extracted text and answer successfully, or (when extraction raised)
remove the file path again and answer with the processing error —
without touching `session_content`. -/
def upload_file_process (st : AppState) (sid fp : String) (res : ExtractResult) :
    AppState × UploadResponse :=
  let st1 : AppState :=
    match lookupS st.session_files sid with
    | none =>
      { session_files := setS st.session_files sid [],
        session_content := setS st.session_content sid "" }
    | some _ => st
  let st2 :=
    { st1 with
      session_files :=
        setS st1.session_files sid (((lookupS st1.session_files sid).getD []) ++ [fp]) }
  match res with
  | .ok t =>
    ({ st2 with session_content := setS st2.session_content sid t },
      .success (pyEscape t))
  | .raises =>
    ({ st2 with
        session_files :=
          setS st2.session_files sid (((lookupS st2.session_files sid).getD []).erase fp) },
      .failure)

/-! ## Helper lemmas -/

/-- Structure eta for strings. -/
theorem mk_data_eq (s : String) : (⟨s.data⟩ : String) = s := rfl

theorem append_ne_empty {a : String} (b : String) (ha : a.data ≠ []) : a ++ b ≠ "" := by
  intro h
  have h1 := congrArg String.data h
  rw [String.data_append] at h1
  have h2 : ("" : String).data = [] := rfl
  rw [h2] at h1
  exact ha (List.append_eq_nil.mp h1).1

theorem head_dropWhile_false (p : Char → Bool) :
    ∀ (l : List Char) (x : Char) (xs : List Char), l.dropWhile p = x :: xs → p x = false := by
  intro l
  induction l with
  | nil => intro x xs h; simp [List.dropWhile] at h
  | cons a t ih =>
    intro x xs h
    by_cases hp : p a = true
    · rw [List.dropWhile_cons, if_pos hp] at h
      exact ih x xs h
    · rw [List.dropWhile_cons, if_neg hp] at h
      cases h
      exact Bool.eq_false_iff.mpr hp

theorem dropWhile_eq_self_of_head (p : Char → Bool) (l : List Char)
    (h : ∀ x xs, l = x :: xs → p x = false) : l.dropWhile p = l := by
  cases l with
  | nil => rfl
  | cons a t =>
    rw [List.dropWhile_cons, if_neg]
    simp [h a t rfl]

theorem pyStripList_idem (l : List Char) : pyStripList (pyStripList l) = pyStripList l := by
  unfold pyStripList
  set a := l.dropWhile pyIsSpace with ha
  set b := a.reverse.dropWhile pyIsSpace with hb
  have hm : (b.reverse).dropWhile pyIsSpace = b.reverse := by
    apply dropWhile_eq_self_of_head
    intro x xs hxxs
    have hsuf : b <:+ a.reverse := List.dropWhile_suffix _
    have hpre : b.reverse <+: a := List.reverse_suffix.mp (by simpa using hsuf)
    obtain ⟨t2, ht2⟩ := hpre
    rw [hxxs] at ht2
    have hx : l.dropWhile pyIsSpace = x :: (xs ++ t2) := by
      rw [← ha, ← ht2]
      simp
    exact head_dropWhile_false pyIsSpace l x (xs ++ t2) hx
  have hb2 : b.dropWhile pyIsSpace = b := by
    apply dropWhile_eq_self_of_head
    intro x xs hx
    exact head_dropWhile_false pyIsSpace a.reverse x xs (by rw [← hb]; exact hx)
  rw [hm, List.reverse_reverse, hb2]

theorem mem_pyStripList {c : Char} {l : List Char} (h : c ∈ pyStripList l) : c ∈ l := by
  unfold pyStripList at h
  rw [List.mem_reverse] at h
  have h1 : c ∈ (l.dropWhile pyIsSpace).reverse := (List.dropWhile_sublist _).subset h
  rw [List.mem_reverse] at h1
  exact (List.dropWhile_sublist _).subset h1

theorem singleSplit_ne_nil (isSep : Char → Bool) (l : List Char) :
    singleSplit isSep l ≠ [] := by
  cases l with
  | nil => simp [singleSplit]
  | cons a t =>
    rw [singleSplit]
    split <;> simp

theorem singleSplit_no_sep (isSep : Char → Bool) :
    ∀ (l : List Char), ∀ p ∈ singleSplit isSep l, ∀ c ∈ p, isSep c = false := by
  intro l
  induction l with
  | nil =>
    intro p hp c hc
    simp [singleSplit] at hp
    subst hp
    simp at hc
  | cons a t ih =>
    intro p hp c hc
    rw [singleSplit] at hp
    by_cases hsep : isSep a = true
    · rw [if_pos hsep] at hp
      rcases List.mem_cons.mp hp with h | h
      · subst h; simp at hc
      · exact ih p h c hc
    · rw [if_neg hsep] at hp
      cases hss : singleSplit isSep t with
      | nil => exact absurd hss (singleSplit_ne_nil isSep t)
      | cons q qs =>
        rw [hss] at hp
        simp only [List.headI, List.tail] at hp
        rcases List.mem_cons.mp hp with h | h
        · subst h
          rcases List.mem_cons.mp hc with h1 | h1
          · subst h1; exact Bool.eq_false_iff.mpr hsep
          · exact ih q (by rw [hss]; exact List.mem_cons_self q qs) c h1
        · exact ih p (by rw [hss]; exact List.mem_cons_of_mem q h) c hc

theorem mem_collapseEmpties :
    ∀ (L : List (List Char)), ∀ p ∈ collapseEmpties L, p ∈ L := by
  intro L
  induction L with
  | nil => intro p hp; simp [collapseEmpties] at hp
  | cons q rest ih =>
    intro p hp
    cases rest with
    | nil =>
      simp only [collapseEmpties] at hp
      exact hp
    | cons r rs =>
      simp only [collapseEmpties] at hp
      by_cases hq : q = []
      · rw [if_pos hq] at hp
        exact List.mem_cons_of_mem q (ih p hp)
      · rw [if_neg hq] at hp
        rcases List.mem_cons.mp hp with h | h
        · exact h ▸ List.mem_cons_self q _
        · exact List.mem_cons_of_mem q (ih p h)

theorem mem_splitRuns (isSep : Char → Bool) (l : List Char) :
    ∀ p ∈ splitRuns isSep l, p ∈ singleSplit isSep l := by
  intro p hp
  unfold splitRuns at hp
  cases hss : singleSplit isSep l with
  | nil => exact absurd hss (singleSplit_ne_nil isSep l)
  | cons q qs =>
    rw [hss] at hp
    cases qs with
    | nil => exact hp
    | cons r rs =>
      have hp2 : p ∈ q :: collapseEmpties (r :: rs) := hp
      rcases List.mem_cons.mp hp2 with h | h
      · exact h ▸ List.mem_cons_self q _
      · exact List.mem_cons_of_mem q (mem_collapseEmpties _ p h)

theorem splitRuns_no_sep (isSep : Char → Bool) (l : List Char) :
    ∀ p ∈ splitRuns isSep l, ∀ c ∈ p, isSep c = false :=
  fun p hp => singleSplit_no_sep isSep l p (mem_splitRuns isSep l p hp)

theorem escapeChar_eq_self {c : Char} (h1 : c ≠ '&') (h2 : c ≠ '<') (h3 : c ≠ '>')
    (h4 : c ≠ '"') (h5 : c.toNat ≠ 39) : escapeChar c = [c] := by
  unfold escapeChar
  rw [if_neg h1, if_neg h2, if_neg h3, if_neg h4, if_neg h5]

theorem lt_not_mem_escapeChar (c : Char) : '<' ∉ escapeChar c := by
  unfold escapeChar
  split_ifs with h1 h2 h3 h4 h5
  · decide
  · decide
  · decide
  · decide
  · decide
  · intro h
    rw [List.mem_singleton] at h
    exact h2 h.symm

theorem mem_escape_foldr :
    ∀ (l : List Char) (c : Char),
      c ∈ l.foldr (fun c acc => escapeChar c ++ acc) [] → ∃ d ∈ l, c ∈ escapeChar d := by
  intro l c
  induction l with
  | nil => intro h; simp at h
  | cons a t ih =>
    intro h
    rw [List.foldr_cons] at h
    rcases List.mem_append.mp h with h | h
    · exact ⟨a, List.mem_cons_self a t, h⟩
    · obtain ⟨d, hd, hc⟩ := ih h
      exact ⟨d, List.mem_cons_of_mem a hd, hc⟩

theorem lt_not_mem_pyEscape (t : String) : '<' ∉ (pyEscape t).data := by
  intro h
  obtain ⟨d, _, hmem⟩ := mem_escape_foldr t.data '<' h
  exact lt_not_mem_escapeChar d hmem

theorem isPrefixOf_mem :
    ∀ (l m : List Char), l.isPrefixOf m = true → ∀ c ∈ l, c ∈ m := by
  intro l
  induction l with
  | nil => intro m _ c hc; simp at hc
  | cons a t ih =>
    intro m hpre c hc
    cases m with
    | nil => simp [List.isPrefixOf] at hpre
    | cons b bs =>
      rw [List.isPrefixOf] at hpre
      obtain ⟨hab, hrest⟩ := Bool.and_eq_true_iff.mp hpre
      rcases List.mem_cons.mp hc with h | h
      · subst h
        have : c = b := by simpa using hab
        exact this ▸ List.mem_cons_self b bs
      · exact List.mem_cons_of_mem b (ih bs hrest c h)

theorem listContainsSub_mem :
    ∀ (hay nd : List Char), listContainsSub hay nd = true → ∀ c ∈ nd, c ∈ hay := by
  intro hay
  induction hay with
  | nil =>
    intro nd h c hc
    rw [listContainsSub] at h
    rw [List.isEmpty_iff.mp h] at hc
    simp at hc
  | cons a t ih =>
    intro nd h c hc
    rw [listContainsSub] at h
    rcases Bool.or_eq_true_iff.mp h with h1 | h1
    · exact isPrefixOf_mem nd (a :: t) h1 c hc
    · exact List.mem_cons_of_mem a (ih nd h1 c hc)

theorem lookupS_setS_self {α : Type} (m : List (String × α)) (k : String) (v : α) :
    lookupS (setS m k v) k = some v := by
  induction m with
  | nil => simp [setS, lookupS]
  | cons kv rest ih =>
    obtain ⟨k2, w⟩ := kv
    by_cases hk : k2 = k
    · simp [setS, hk, lookupS]
    · simp [setS, hk, lookupS, ih]

theorem mem_scored_sentences {q c : String} {x : Nat × String}
    (hx : x ∈ scored_sentences q c) :
    x.2 ∈ extract_sentences (some c) ∧ 0 < overlapScore q x.2 ∧ x.1 = overlapScore q x.2 := by
  unfold scored_sentences at hx
  obtain ⟨s, hs, rfl⟩ := List.mem_map.mp hx
  obtain ⟨hmem, hpos⟩ := List.mem_filter.mp hs
  exact ⟨hmem, by simpa using hpos, rfl⟩

theorem frc_pairwise (q c : String) :
    List.Pairwise
      (fun a b => overlapScore q b < overlapScore q a ∨
        (overlapScore q a = overlapScore q b ∧ listLE b.data a.data = true))
      (find_relevant_content q c) := by
  unfold find_relevant_content
  split
  · exact List.Pairwise.nil
  split
  · exact List.Pairwise.nil
  have hsort : List.Sorted pairGe (List.insertionSort pairGe (scored_sentences q c)) :=
    List.sorted_insertionSort pairGe _
  have htake : List.Pairwise pairGe ((List.insertionSort pairGe (scored_sentences q c)).take 3) :=
    List.Pairwise.sublist (List.take_sublist 3 _) hsort
  have hmem : ∀ x ∈ (List.insertionSort pairGe (scored_sentences q c)).take 3,
      x.1 = overlapScore q x.2 := by
    intro x hx
    have hx1 : x ∈ List.insertionSort pairGe (scored_sentences q c) :=
      (List.take_sublist 3 _).subset hx
    have hx2 : x ∈ scored_sentences q c :=
      (List.perm_insertionSort pairGe _).subset hx1
    exact (mem_scored_sentences hx2).2.2
  rw [List.pairwise_map]
  refine List.Pairwise.imp_of_mem ?_ htake
  intro a b ha hb hab
  have ha1 := hmem a ha
  have hb1 := hmem b hb
  rcases hab with h | ⟨h1, h2⟩
  · left
    rw [← ha1, ← hb1]
    exact h
  · right
    refine ⟨?_, h2⟩
    rw [← ha1, ← hb1]
    exact h1

theorem mem_find_relevant {q c s : String} (hs : s ∈ find_relevant_content q c) :
    1 ≤ overlapScore q s ∧ s ∈ extract_sentences (some c) := by
  unfold find_relevant_content at hs
  split at hs
  · simp at hs
  split at hs
  · simp at hs
  obtain ⟨x, hx, rfl⟩ := List.mem_map.mp hs
  have hx2 : x ∈ scored_sentences q c :=
    (List.perm_insertionSort pairGe _).subset ((List.take_sublist 3 _).subset hx)
  have h := mem_scored_sentences hx2
  exact ⟨h.2.1, h.1⟩

theorem frc_length_le (q c : String) : (find_relevant_content q c).length ≤ 3 := by
  unfold find_relevant_content
  split
  · simp
  split
  · simp
  rw [List.length_map, List.length_take]
  exact Nat.min_le_left _ _

theorem generate_local_answer_ne_empty (q c : String) : generate_local_answer q c ≠ "" := by
  unfold generate_local_answer
  cases hfrc : find_relevant_content q c with
  | nil =>
    show ("No relevant information found in the document" : String) ≠ ""
    decide
  | cons primary rest =>
    simp only []
    split_ifs <;> exact append_ne_empty _ (by decide)

/-! ## Claims -/

/-- C1: for every non-empty query string and non-empty context string,
`generate_answer(query, context)` returns a non-empty string (with no
remote client configured, the result comes entirely from the local
fallback pipeline; totality — the embedding is a total function, so the
call cannot raise). -/
theorem generate_answer_nonempty (q c : String) (hq : q ≠ "") (hc : c ≠ "") :
    generate_answer q c ≠ "" := by
  unfold generate_answer
  rw [if_neg (by simp [hq, hc])]
  exact generate_local_answer_ne_empty _ _

/-- Witness for C1 at a concrete non-empty query and context. -/
theorem generate_answer_nonempty_witness :
    ("what is this" : String) ≠ "" ∧ ("a short context sentence" : String) ≠ "" ∧
      generate_answer "what is this" "a short context sentence" ≠ "" :=
  ⟨by decide, by decide, generate_answer_nonempty _ _ (by decide) (by decide)⟩

/-- C2: `_find_relevant_content` returns at most 3 sentences; every
returned sentence is one of the extracted sentences and has word-set
overlap at least 1 with the query (overlap-0 sentences are discarded);
and the output is ordered by overlap score descending.  `overlapScore`
is the size of the intersection of the lower-cased whitespace-split word
sets; scores are discarded from the output. -/
theorem find_relevant_content_spec (q c : String) :
    (find_relevant_content q c).length ≤ 3 ∧
      (∀ s ∈ find_relevant_content q c,
        1 ≤ overlapScore q s ∧ s ∈ extract_sentences (some c)) ∧
      List.Pairwise (fun a b => overlapScore q b ≤ overlapScore q a)
        (find_relevant_content q c) := by
  refine ⟨frc_length_le q c, fun s hs => mem_find_relevant hs, ?_⟩
  refine List.Pairwise.imp ?_ (frc_pairwise q c)
  intro a b hab
  rcases hab with h | ⟨h1, _⟩
  · exact Nat.le_of_lt h
  · exact Nat.le_of_eq h1.symm

/-- Witness for C2 at a concrete query and context. -/
theorem find_relevant_content_spec_witness :
    1 ≤ overlapScore "the cat" "the cat sat on the mat" ∧
      "the cat sat on the mat" ∈ extract_sentences (some "the cat sat on the mat") :=
  (find_relevant_content_spec "the cat" "the cat sat on the mat").2.1
    "the cat sat on the mat" (by decide)

/-- C3: if no sentence extracted from the context has word overlap at
least 1 with the query, the local answer (the answer returned when the
remote path is disabled; `generate_answer` reaches
`_generate_local_answer` at app.py line 137) is exactly the fixed string
"No relevant information found in the document" — an ordinary return
value, not an error. -/
theorem no_overlap_fixed_message (q c : String)
    (h : ∀ s ∈ extract_sentences (some c), overlapScore q s = 0) :
    generate_local_answer q c = "No relevant information found in the document" := by
  have hfrc : find_relevant_content q c = [] := by
    unfold find_relevant_content
    split
    · rfl
    split
    · rfl
    have hsc : scored_sentences q c = [] := by
      unfold scored_sentences
      rw [List.filter_eq_nil_iff.mpr ?_]
      · rfl
      · intro s hs
        simp [h s hs]
    rw [hsc]
    rfl
  simp [generate_local_answer, hfrc]

/-- Witness for C3 at a concrete no-overlap query and context. -/
theorem no_overlap_fixed_message_witness :
    generate_local_answer "zebra" "the quick brown fox jumped" =
      "No relevant information found in the document" :=
  no_overlap_fixed_message _ _ (by decide)

/-- C4: `_extract_sentences` returns `[]` on non-string (`none`) and
empty input without raising; every returned sentence is longer than 10
characters after trimming, is already trimmed, and contains no boundary
character (`.` `!` `?` newline); the output is an order-preserving
selection of the trimmed pieces of the run-split; and on the concrete
inputs the run-split behaves as specified (runs of boundary characters
collapse, trimmed pieces of length at most 10 are dropped). -/
theorem extract_sentences_spec :
    extract_sentences none = [] ∧
      extract_sentences (some "") = [] ∧
      (∀ t : String, ∀ s ∈ extract_sentences (some t),
        10 < s.data.length ∧ pyStrip s = s ∧ ∀ ch ∈ s.data, isSentSep ch = false) ∧
      (∀ t : String,
        List.Sublist (extract_sentences (some t))
          ((splitRuns isSentSep t.data).map fun p => pyStrip ⟨p⟩)) ∧
      extract_sentences (some "This is sentence one. Hi. This is sentence two!") =
        ["This is sentence one", "This is sentence two"] ∧
      extract_sentences (some "aaaaaaaaaaaa...\n\nbbbbbbbbbbbb") =
        ["aaaaaaaaaaaa", "bbbbbbbbbbbb"] := by
  refine ⟨rfl, by decide, ?_, ?_, by decide, by decide⟩
  · intro t s hs
    rw [show extract_sentences (some t) =
      (if t = "" then []
        else ((splitRuns isSentSep t.data).map fun p => pyStrip ⟨p⟩).filter
          fun s => 10 < s.data.length) from rfl] at hs
    by_cases ht : t = ""
    · rw [if_pos ht] at hs
      simp at hs
    rw [if_neg ht] at hs
    obtain ⟨hmap, hlen⟩ := List.mem_filter.mp hs
    obtain ⟨p, hp, rfl⟩ := List.mem_map.mp hmap
    refine ⟨by simpa using hlen, ?_, ?_⟩
    · show pyStrip ⟨pyStripList p⟩ = pyStrip ⟨p⟩
      unfold pyStrip
      exact congrArg String.mk (pyStripList_idem p)
    · intro ch hch
      have hch2 : ch ∈ p := mem_pyStripList hch
      exact splitRuns_no_sep isSentSep t.data p hp ch hch2
  · intro t
    rw [show extract_sentences (some t) =
      (if t = "" then []
        else ((splitRuns isSentSep t.data).map fun p => pyStrip ⟨p⟩).filter
          fun s => 10 < s.data.length) from rfl]
    by_cases ht : t = ""
    · rw [if_pos ht]
      exact List.nil_sublist _
    · rw [if_neg ht]
      exact List.filter_sublist _

/-- Witness for C4's sentence-shape conjunct at a concrete input. -/
theorem extract_sentences_spec_witness :
    10 < ("This is sentence one" : String).data.length ∧
      pyStrip "This is sentence one" = "This is sentence one" ∧
      ∀ ch ∈ ("This is sentence one" : String).data, isSentSep ch = false :=
  extract_sentences_spec.2.2.1 "This is sentence one. Hi. This is sentence two!"
    "This is sentence one" (by decide)

/-- C5: two contexts longer than `MAX_CONTEXT_LENGTH` that agree on
their first `MAX_CONTEXT_LENGTH` characters produce the same answer for
the same query (no remote client): the context is hard-truncated before
the fallback pipeline runs, so content beyond the cutoff never
influences the answer. -/
theorem truncation_confidentiality (q c1 c2 : String)
    (h1 : MAX_CONTEXT_LENGTH < c1.data.length)
    (h2 : MAX_CONTEXT_LENGTH < c2.data.length)
    (h : c1.data.take MAX_CONTEXT_LENGTH = c2.data.take MAX_CONTEXT_LENGTH) :
    generate_answer q c1 = generate_answer q c2 := by
  have hc1 : c1 ≠ "" := by
    intro hh
    rw [hh] at h1
    simp [MAX_CONTEXT_LENGTH] at h1
  have hc2 : c2 ≠ "" := by
    intro hh
    rw [hh] at h2
    simp [MAX_CONTEXT_LENGTH] at h2
  unfold generate_answer
  by_cases hq : q = ""
  · rw [if_pos (Or.inl hq), if_pos (Or.inl hq)]
  · rw [if_neg (by simp [hq, hc1]), if_neg (by simp [hq, hc2])]
    have ht : truncate_context c1 = truncate_context c2 := by
      unfold truncate_context
      rw [if_pos h1, if_pos h2]
      exact congrArg String.mk h
    rw [ht]

/-- Witness for C5: two concrete 2001-character contexts differing only
in the final character. -/
theorem truncation_confidentiality_witness :
    MAX_CONTEXT_LENGTH < (⟨List.replicate 2001 'a'⟩ : String).data.length ∧
      MAX_CONTEXT_LENGTH < (⟨List.replicate 2000 'a' ++ ['b']⟩ : String).data.length ∧
      (⟨List.replicate 2001 'a'⟩ : String).data.take MAX_CONTEXT_LENGTH =
        (⟨List.replicate 2000 'a' ++ ['b']⟩ : String).data.take MAX_CONTEXT_LENGTH ∧
      generate_answer "what" ⟨List.replicate 2001 'a'⟩ =
        generate_answer "what" ⟨List.replicate 2000 'a' ++ ['b']⟩ := by
  have hsplit : List.replicate 2001 'a' = List.replicate 2000 'a' ++ List.replicate 1 'a' := by
    have h := List.replicate_add 2000 1 'a'
    rw [show (2000 + 1 : Nat) = 2001 from rfl] at h
    exact h
  have h1 : MAX_CONTEXT_LENGTH < (⟨List.replicate 2001 'a'⟩ : String).data.length := by
    show MAX_CONTEXT_LENGTH < (List.replicate 2001 'a').length
    rw [List.length_replicate]
    decide
  have h2 : MAX_CONTEXT_LENGTH < (⟨List.replicate 2000 'a' ++ ['b']⟩ : String).data.length := by
    show MAX_CONTEXT_LENGTH < (List.replicate 2000 'a' ++ ['b']).length
    rw [List.length_append, List.length_replicate]
    decide
  have h3 : (⟨List.replicate 2001 'a'⟩ : String).data.take MAX_CONTEXT_LENGTH =
      (⟨List.replicate 2000 'a' ++ ['b']⟩ : String).data.take MAX_CONTEXT_LENGTH := by
    show (List.replicate 2001 'a').take MAX_CONTEXT_LENGTH =
      (List.replicate 2000 'a' ++ ['b']).take MAX_CONTEXT_LENGTH
    rw [show MAX_CONTEXT_LENGTH = 2000 from rfl, hsplit,
      List.take_left' (List.length_replicate 2000 'a'),
      List.take_left' (List.length_replicate 2000 'a')]
  exact ⟨h1, h2, h3, truncation_confidentiality _ _ _ h1 h2 h3⟩

/-- C6: when at least one sentence overlaps the query, the composed
answer is a prefix string concatenated with the sanitized top-ranked
sentence, the prefix chosen by substring tests on the lower-cased query
in priority order with the first match winning:
what/define, then how/process, then why/reason, then when/where/who,
then the default. -/
theorem composer_prefix_spec (q c primary : String) (rest : List String)
    (h : find_relevant_content q c = primary :: rest) :
    ((hasSub (pyLower q) "what" || hasSub (pyLower q) "define") = true →
        generate_local_answer q c = "According to the document: " ++ sanitizeStr primary) ∧
      ((hasSub (pyLower q) "what" || hasSub (pyLower q) "define") = false →
        (hasSub (pyLower q) "how" || hasSub (pyLower q) "process") = true →
        generate_local_answer q c = "The process described is: " ++ sanitizeStr primary) ∧
      ((hasSub (pyLower q) "what" || hasSub (pyLower q) "define") = false →
        (hasSub (pyLower q) "how" || hasSub (pyLower q) "process") = false →
        (hasSub (pyLower q) "why" || hasSub (pyLower q) "reason") = true →
        generate_local_answer q c = "The explanation provided is: " ++ sanitizeStr primary) ∧
      ((hasSub (pyLower q) "what" || hasSub (pyLower q) "define") = false →
        (hasSub (pyLower q) "how" || hasSub (pyLower q) "process") = false →
        (hasSub (pyLower q) "why" || hasSub (pyLower q) "reason") = false →
        (hasSub (pyLower q) "when" || hasSub (pyLower q) "where" ||
            hasSub (pyLower q) "who") = true →
        generate_local_answer q c = "Based on the document: " ++ sanitizeStr primary) ∧
      ((hasSub (pyLower q) "what" || hasSub (pyLower q) "define") = false →
        (hasSub (pyLower q) "how" || hasSub (pyLower q) "process") = false →
        (hasSub (pyLower q) "why" || hasSub (pyLower q) "reason") = false →
        (hasSub (pyLower q) "when" || hasSub (pyLower q) "where" ||
            hasSub (pyLower q) "who") = false →
        generate_local_answer q c = "From the document: " ++ sanitizeStr primary) := by
  refine ⟨?_, ?_, ?_, ?_, ?_⟩ <;> intros <;> simp_all [generate_local_answer]

/-- Witness for C6 at a concrete "what" query. -/
theorem composer_prefix_spec_witness :
    generate_local_answer "what is photosynthesis" "photosynthesis is a process used by plants" =
      "According to the document: " ++ sanitizeStr "photosynthesis is a process used by plants" :=
  (composer_prefix_spec "what is photosynthesis" "photosynthesis is a process used by plants"
      "photosynthesis is a process used by plants" [] (by decide)).1 (by decide)

/-- C7 counterexample: the claim that the fallback re-tokenizes with the
query as originally supplied is false.  With query `"&"` and context
`"xx &amp; yy zz aa"` and no client, `generate_answer` matches the
sanitized query token `&amp;` against the context and answers from the
document, whereas running the local pipeline on the original query `"&"`
finds no overlap and yields the no-match message — so the fallback did
not use the original query. -/
theorem fallback_query_counterexample :
    generate_answer "&" "xx &amp; yy zz aa" = "From the document: xx &amp;amp; yy zz aa" ∧
      generate_local_answer "&" "xx &amp; yy zz aa" =
        "No relevant information found in the document" := by
  constructor
  · decide
  · decide

/-- C7 amended: when the remote client is absent (or its call fails, which
reaches the same call at app.py line 137), the fallback pipeline runs on
the hard-truncated context and the *sanitized* (stripped, markup-escaped)
query that was prepared for the remote call — not the query as originally
supplied. -/
theorem fallback_sanitized_query (q c : String) (hq : q ≠ "") (hc : c ≠ "") :
    generate_answer q c =
      generate_local_answer (sanitizeStr q)
        (⟨c.data.take MAX_CONTEXT_LENGTH⟩ : String) := by
  unfold generate_answer
  rw [if_neg (by simp [hq, hc])]
  congr 1
  unfold truncate_context
  split
  · rfl
  · rename_i hlen
    rw [List.take_of_length_le (Nat.le_of_not_lt hlen)]

/-- Witness for C7's amended theorem at concrete inputs. -/
theorem fallback_sanitized_query_witness :
    generate_answer "how does it work" "it works by magic somehow" =
      generate_local_answer (sanitizeStr "how does it work")
        (⟨("it works by magic somehow" : String).data.take MAX_CONTEXT_LENGTH⟩ : String) :=
  fallback_sanitized_query _ _ (by decide) (by decide)

/-- C8 counterexample: an upload that fails can mutate the session's
Document Context.  For a fresh session (no `session_files` entry), the
route initialises `session_content[sid] = ''` before processing
(app.py lines 325-327); when extraction then raises, the request is
answered with the processing error yet the session now has an
empty-string Document Context entry where before it had none. -/
theorem upload_failure_counterexample :
    lookupS (AppState.mk [] []).session_content "abcdefghij" = none ∧
      (upload_file_process ⟨[], []⟩ "abcdefghij" "f.pdf" .raises).2 = .failure ∧
      lookupS (upload_file_process ⟨[], []⟩ "abcdefghij" "f.pdf" .raises).1.session_content
        "abcdefghij" = some "" := by
  refine ⟨rfl, rfl, ?_⟩
  decide

/-- C8 amended: after an upload whose processing succeeds with text `t`,
the session's stored Document Context is exactly `t` (it reflects the
most recent successfully processed upload); an upload whose processing
raises leaves the Document Context unchanged when the session already
had a `session_files` entry, but a failed first upload for a fresh
session leaves behind an empty-string Document Context entry. -/
theorem upload_context_spec (st : AppState) (sid fp : String) (res : ExtractResult) :
    lookupS (upload_file_process st sid fp res).1.session_content sid =
      match res with
      | .ok t => some t
      | .raises =>
        match lookupS st.session_files sid with
        | some _ => lookupS st.session_content sid
        | none => some "" := by
  unfold upload_file_process
  cases res with
  | ok t =>
    cases hfiles : lookupS st.session_files sid <;>
      simp [hfiles, lookupS_setS_self]
  | raises =>
    cases hfiles : lookupS st.session_files sid <;>
      simp [hfiles, lookupS_setS_self]

/-- C9: on strings containing none of the markup-significant characters
(`&`, `<`, `>`, `"`, and the single quote, code point 39), applying
`_sanitize_text` twice equals applying it once; and for every input the
sanitized output contains no `<script>` substring (in fact no unescaped
`<` at all). -/
theorem sanitize_spec (s : String) :
    ((∀ ch ∈ s.data, ch ≠ '&' ∧ ch ≠ '<' ∧ ch ≠ '>' ∧ ch ≠ '"' ∧ ch.toNat ≠ 39) →
        sanitizeStr (sanitizeStr s) = sanitizeStr s) ∧
      hasSub (sanitizeStr s) "<script>" = false := by
  constructor
  · intro h
    have hesc : ∀ l : List Char, (∀ ch ∈ l, ch ∈ s.data) →
        l.foldr (fun c acc => escapeChar c ++ acc) [] = l := by
      intro l hl
      induction l with
      | nil => rfl
      | cons a t ih =>
        rw [List.foldr_cons]
        obtain ⟨h1, h2, h3, h4, h5⟩ := h a (hl a (List.mem_cons_self a t))
        rw [escapeChar_eq_self h1 h2 h3 h4 h5,
          ih fun ch hch => hl ch (List.mem_cons_of_mem a hch)]
        rfl
    have hs1 : sanitizeStr s = pyStrip s := by
      unfold sanitizeStr pyEscape
      rw [show (pyStrip s).data = pyStripList s.data from rfl,
        hesc (pyStripList s.data) fun ch hch => mem_pyStripList hch]
      rfl
    have hs2 : sanitizeStr (pyStrip s) = pyStrip (pyStrip s) := by
      unfold sanitizeStr pyEscape
      rw [show (pyStrip (pyStrip s)).data = pyStripList (pyStripList s.data) from rfl,
        hesc (pyStripList (pyStripList s.data))
          fun ch hch => mem_pyStripList (mem_pyStripList hch)]
      rfl
    rw [hs1, hs2]
    show (⟨pyStripList (pyStrip s).data⟩ : String) = pyStrip s
    rw [show (pyStrip s).data = pyStripList s.data from rfl]
    exact congrArg String.mk (pyStripList_idem s.data)
  · cases hcontra : hasSub (sanitizeStr s) "<script>" with
    | false => rfl
    | true =>
      exfalso
      have hmem := listContainsSub_mem _ _ hcontra '<' (by decide)
      exact lt_not_mem_pyEscape (pyStrip s) hmem

/-- Witness for C9 on a concrete special-character-free string. -/
theorem sanitize_spec_witness :
    sanitizeStr (sanitizeStr "plain text") = sanitizeStr "plain text" ∧
      hasSub (sanitizeStr "plain text") "<script>" = false :=
  ⟨(sanitize_spec "plain text").1 (by decide), (sanitize_spec "plain text").2⟩

/-- C10: among returned sentences with equal overlap score,
`_find_relevant_content` orders them by descending lexicographic
comparison of the sentence text (the consequence of sorting
`(score, sentence)` tuples with `reverse=True`), deterministically, not
by original document position. -/
theorem find_relevant_tiebreak (q c : String) :
    List.Pairwise
      (fun a b => overlapScore q a = overlapScore q b → listLE b.data a.data = true)
      (find_relevant_content q c) := by
  refine List.Pairwise.imp ?_ (frc_pairwise q c)
  intro a b hab heq
  rcases hab with h | ⟨_, h2⟩
  · exact absurd heq (Nat.ne_of_gt h)
  · exact h2

/-- Witness for C10: with query `"qq"`, the sentences
`"aa bb cc dd qq"` and `"zz yy xx ww qq"` tie at overlap 1, and the
output orders the lexicographically larger text first even though it
appears second in the document. -/
theorem find_relevant_tiebreak_witness :
    listLE ("aa bb cc dd qq" : String).data ("zz yy xx ww qq" : String).data = true := by
  have h := find_relevant_tiebreak "qq" "aa bb cc dd qq. zz yy xx ww qq"
  have he : find_relevant_content "qq" "aa bb cc dd qq. zz yy xx ww qq" =
      ["zz yy xx ww qq", "aa bb cc dd qq"] := by decide
  rw [he] at h
  exact (List.pairwise_cons.mp h).1 "aa bb cc dd qq" (by simp) (by decide)

end SmartPDF
